import Mathlib

/-!
The backend message encoders of pgsrv (`msg_query.go`)

A shallow embedding of the message builders of `msg_query.go` and of `QueryText`,
followed by the properties of the wire format that the specification states.

Conventions of the embedding.

* A Go `byte` is a natural number; every operation that produces a byte reduces
  modulo 256, as the Go conversion `byte(x)` does.
* A Go `string` and a Go `[]byte` are both the list of their bytes.  The conversions
  `[]byte(s)` and `string(b)` copy the bytes unchanged, so they are the identity here.
* A Go `int` is an `Int`; the conversions `uint16(x)` and `uint32(x)` reduce modulo
  `2^16` and `2^32`.
* A run-time panic (index or slice bound out of range) is the result `none`.
-/

namespace Pgsrv

/-! ## Go primitives used by the file -/

/-- The bytes of an ASCII string literal of the source. -/
def ascii (s : String) : List Nat := s.toList.map Char.toNat

/-- Go conversion `byte(x)` of an unsigned value. -/
def byte (x : Nat) : Nat := x % 256

/-- Go conversion `uint16(x)` of an `int`. -/
def uint16 (x : Int) : Nat := (x % 65536).toNat

/-- Go conversion `uint32(x)` of an `int`. -/
def uint32 (x : Int) : Nat := (x % 4294967296).toNat

/-- Go builtin `len`, an `int`. -/
def len {α : Type} (l : List α) : Int := (l.length : Int)

/-- The call `binary.BigEndian.PutUint16(b[off:], v)`: it stores `byte(v >> 8)` and `byte(v)`
at offsets `off` and `off + 1` of `b` (the slice shares the bytes of `b`). -/
def PutUint16 (b : List Nat) (off : Nat) (v : Nat) : List Nat :=
  (b.set off (byte (v >>> 8))).set (off + 1) (byte v)

/-- The call `binary.BigEndian.PutUint32(b[off:off+4], v)`: it stores `byte(v >> 24)`,
`byte(v >> 16)`, `byte(v >> 8)` and `byte(v)` at offsets `off .. off + 3` of `b`. -/
def PutUint32 (b : List Nat) (off : Nat) (v : Nat) : List Nat :=
  (((b.set off (byte (v >>> 24))).set (off + 1) (byte (v >>> 16))).set (off + 2)
    (byte (v >>> 8))).set (off + 3) (byte v)

/-- A Go `map[string]V` as an association list with pairwise distinct keys. -/
abbrev GoMap (V : Type) := List (List Nat × V)

/-- Map index expression `m[k]`: the stored value, or the zero value of `V` for a missing key. -/
def mapIndex {V : Type} (zero : V) (m : GoMap V) (k : List Nat) : V :=
  match m.lookup k with
  | some v => v
  | none => zero

/-- Map assignment `m[k] = v`: replaces the value of an existing key, adds a new entry
otherwise. -/
def mapAssign {V : Type} : GoMap V → List Nat → V → GoMap V
  | [], k, v => [(k, v)]
  | (k0, v0) :: m, k, v => if k0 = k then (k, v) :: m else (k0, v0) :: mapAssign m k v

/-- The digit loop of `fmt` for an unsigned value in base 10: digits are produced from the
least significant one and stored in front of the ones already written. -/
def fmtDigits : Nat → Nat → List Nat → List Nat
  | 0, u, acc => ('0'.toNat + u % 10) :: acc
  | fuel + 1, u, acc =>
    if u ≥ 10 then fmtDigits fuel (u / 10) (('0'.toNat + (u - (u / 10) * 10)) :: acc)
    else ('0'.toNat + u) :: acc

/-- The call `fmt.Sprintf("%d", n)` for an `int`: a minus sign for a negative value, then
the decimal digits of its magnitude. -/
def sprintfD (n : Int) : List Nat :=
  if n < 0 then '-'.toNat :: fmtDigits n.natAbs n.natAbs []
  else fmtDigits n.natAbs n.natAbs []

/-! ## The type-OID registry -/

/-- The table `TypesOid` of the source. -/
def TypesOid : GoMap Int :=
  [ (ascii "BOOL", 16),
    (ascii "BYTEA", 17),
    (ascii "CHAR", 18),
    (ascii "INT8", 20),
    (ascii "INT2", 21),
    (ascii "INT4", 23),
    (ascii "INT", 20),
    (ascii "TEXT", 25),
    (ascii "JSON", 114),
    (ascii "XML", 142),
    (ascii "FLOAT4", 700),
    (ascii "FLOAT8", 701),
    (ascii "VARCHAR", 1043),
    (ascii "DATE", 1082),
    (ascii "TIME", 1083),
    (ascii "TIMESTAMP", 1114),
    (ascii "TIMESTAMPZ", 1184),
    (ascii "INTERVAL", 1186),
    (ascii "NUMERIC", 1700),
    (ascii "JSONB", 3802),
    (ascii "ANY", 2276) ]

/-! ## `rowDescriptionMsg` -/

/-- The body of `for i, c := range cols` in `rowDescriptionMsg`, from index `i` on, with
`msg` the bytes appended so far.  The access `types[i]` panics when `i` is out of range. -/
def rowDescriptionLoop (types : List (List Nat)) : Nat → List (List Nat) → List Nat →
    Option (List Nat)
  | _, [], msg => some msg
  | i, c :: cs, msg =>
    match types[i]? with
    | none => none
    | some t =>
      let msg := msg ++ c
      let msg := msg ++ [0]
      let msg := msg ++ [0, 0, 0, 0]
      let msg := msg ++ [0, 0]
      let oid := PutUint32 [0, 0, 0, 0] 0 (uint32 (mapIndex 0 TypesOid t))
      let msg := msg ++ oid
      let msg := msg ++ [0, 0]
      let msg := msg ++ [0, 0, 0, 0]
      let msg := msg ++ [0, 0]
      rowDescriptionLoop types (i + 1) cs msg

/-- The function `rowDescriptionMsg(cols, types)`. -/
def rowDescriptionMsg (cols types : List (List Nat)) : Option (List Nat) :=
  let msg := ['T'.toNat, 0, 0, 0, 0, 0, 0]
  let msg := PutUint16 msg 5 (uint16 (len cols))
  match rowDescriptionLoop types 0 cols msg with
  | none => none
  | some msg => some (PutUint32 msg 1 (uint32 (len msg - 1)))

/-! ## `dataRowMsg` -/

/-- The body of `for _, v := range vals` in `dataRowMsg`, with `msg` the bytes appended
so far. -/
def dataRowLoop : List (List Nat) → List Nat → List Nat
  | [], msg => msg
  | v :: vs, msg =>
    let b := [0, 0, 0, 0] ++ v
    let b := PutUint32 b 0 (uint32 (len b - 4))
    dataRowLoop vs (msg ++ b)

/-- The function `dataRowMsg(vals)`. -/
def dataRowMsg (vals : List (List Nat)) : List Nat :=
  let msg := ['D'.toNat, 0, 0, 0, 0, 0, 0]
  let msg := PutUint16 msg 5 (uint16 (len vals))
  let msg := dataRowLoop vals msg
  PutUint32 msg 1 (uint32 (len msg - 1))

/-! ## `completeMsg` -/

/-- The function `completeMsg(tag)`. -/
def completeMsg (tag : List Nat) : List Nat :=
  let msg := ['C'.toNat, 0, 0, 0, 0]
  let msg := msg ++ tag
  let msg := msg ++ [0]
  PutUint32 msg 1 (uint32 (len msg - 1))

/-! ## `errMsg` -/

/-- A non-nil Go `error` as `errMsg` sees it: the text of `Error()`, and the results of
`Code()`, `Hint()` and `Loc()` when the dynamic type has the method (`none` when the type
assertion fails). -/
structure GoError where
  Error : List Nat
  Code : Option (List Nat)
  Hint : Option (List Nat)
  Loc : Option Int
deriving DecidableEq

/-- The map `fields` of `errMsg` when the `range` loop starts. -/
def errFields (err : GoError) : GoMap (List Nat) :=
  let fields : GoMap (List Nat) :=
    [(ascii "S", ascii "ERROR"), (ascii "C", ascii "XX000"), (ascii "M", err.Error)]
  let fields :=
    match err.Code with
    | some code => if code ≠ [] then mapAssign fields (ascii "C") code else fields
    | none => fields
  let fields :=
    match err.Hint with
    | some hint => if hint ≠ [] then mapAssign fields (ascii "H") hint else fields
    | none => fields
  let fields :=
    match err.Loc with
    | some loc => if loc ≥ 0 then mapAssign fields (ascii "P") (sprintfD loc) else fields
    | none => fields
  fields

/-- The body of `for k, v := range fields` in `errMsg`, over the entries in the order in which
the iteration yields them.  Every key of `fields` is a one-byte literal, so `k[0]` is in
range. -/
def errLoop : List (List Nat × List Nat) → List Nat → List Nat
  | [], msg => msg
  | (k, v) :: kvs, msg =>
    let msg := msg ++ [byte (k.headD 0)]
    let msg := msg ++ v
    let msg := msg ++ [0]
    errLoop kvs msg

/-- The function `errMsg(err)`.  Go leaves the iteration order of a map unspecified: `order`
is the order in which `range fields` yields the entries, a rearrangement of the entries
of the map. -/
def errMsg (order : GoMap (List Nat) → List (List Nat × List Nat)) (err : GoError) :
    List Nat :=
  let msg := ['E'.toNat, 0, 0, 0, 0]
  let msg := errLoop (order (errFields err)) msg
  let msg := msg ++ [0]
  PutUint32 msg 1 (uint32 (len msg - 1))

/-! ## `readyMsg` -/

/-- The function `readyMsg()`. -/
def readyMsg : List Nat := ['Z'.toNat, 0, 0, 0, 5, 'I'.toNat]

/-! ## `QueryText` -/

/-- The table `lowerhex` of `strconv`: the hexadecimal digit of a value below 16. -/
def lowerhex (d : Nat) : Nat := if d < 10 then '0'.toNat + d else 'a'.toNat + (d - 10)

/-- The function `strconv.IsPrint` on a rune below 256. -/
def isPrint (r : Nat) : Bool :=
  if 0x20 ≤ r ∧ r ≤ 0x7E then true
  else if 0xA1 ≤ r ∧ r ≤ 0xFF then r ≠ 0xAD
  else false

/-- The verb `%q` of `fmt` applied to a byte `r`: the single-quoted Go character literal of
the rune `r`, as `strconv.QuoteRune` writes it.  A quote (39) or a backslash (92) is
backslashed, a printable rune is written in UTF-8, and any other rune is escaped. -/
def fmtQ (r : Nat) : List Nat :=
  let body : List Nat :=
    if r = 39 ∨ r = 92 then [92, r]
    else if isPrint r then
      (if r < 0x80 then [r] else [0xC0 ||| (r >>> 6), 0x80 ||| (r &&& 0x3F)])
    else if r = 7 then [92, 'a'.toNat]
    else if r = 8 then [92, 'b'.toNat]
    else if r = 12 then [92, 'f'.toNat]
    else if r = 10 then [92, 'n'.toNat]
    else if r = 13 then [92, 'r'.toNat]
    else if r = 9 then [92, 't'.toNat]
    else if r = 11 then [92, 'v'.toNat]
    else if r < 32 ∨ r = 127 then [92, 'x'.toNat, lowerhex (r >>> 4), lowerhex (r &&& 0xF)]
    else [92, 'u'.toNat, lowerhex ((r >>> 12) &&& 0xF), lowerhex ((r >>> 8) &&& 0xF),
      lowerhex ((r >>> 4) &&& 0xF), lowerhex (r &&& 0xF)]
  [39] ++ body ++ [39]

/-- The method `QueryText` of `msg`.  The result is `none` when the call panics, and
otherwise the returned pair: the text, and the error (`none` for `nil`) given by the text of
its `Error()`.

The type `msg` and its method `Type` are declared in another file of the package, so
`msgType` stands for `m.Type()`: the properties below assume of it only what the
specification says of a message, that it reports byte 0 of a message that has one. -/
def QueryText (msgType : List Nat → Option Nat) (m : List Nat) :
    Option (List Nat × Option (List Nat)) :=
  match msgType m with
  | none => none
  | some t =>
    if t ≠ 'Q'.toNat then
      some (ascii "", some (ascii "Not a query message: " ++ fmtQ t))
    else if 5 ≤ m.length then some (m.drop 5, none)
    else none

/-! ## The wire format, as the specification words it -/

/-- The value of a byte sequence read as a big-endian unsigned integer. -/
def beValue (bs : List Nat) : Nat := bs.foldl (fun acc b => acc * 256 + b) 0

/-- The `k`-byte big-endian encoding of `v`. -/
def bigEndian : Nat → Nat → List Nat
  | 0, _ => []
  | k + 1, v => bigEndian k (v / 256) ++ [v % 256]

/-- A message `m` carries the tag `tag` in byte 0 and, in bytes 1 to 4 read as a big-endian
unsigned 32-bit integer, its own size less the tag byte. -/
def hasHeader (tag : Nat) (m : List Nat) : Prop :=
  5 ≤ m.length ∧ m[0]? = some tag ∧ beValue ((m.drop 1).take 4) = m.length - 1

instance (tag : Nat) (m : List Nat) : Decidable (hasHeader tag m) := by
  unfold hasHeader; infer_instance

/-- The OID that the registry gives a type name: the entry of the table, and 0 for a name
that is not in it. -/
def registryOid (t : List Nat) : Nat :=
  match TypesOid.lookup t with
  | some v => v.toNat
  | none => 0

/-- One field of a RowDescription: the name, a zero byte, table OID 0 (4 bytes), attribute
number 0 (2 bytes), the type OID (4 bytes), type size 0 (2 bytes), type modifier 0 (4 bytes)
and format code 0 (2 bytes). -/
def fieldDescription (c t : List Nat) : List Nat :=
  c ++ [0] ++ bigEndian 4 0 ++ bigEndian 2 0 ++ bigEndian 4 (registryOid t) ++ bigEndian 2 0 ++
    bigEndian 4 0 ++ bigEndian 2 0

/-- The payload of a RowDescription for the columns `cols` of types `types`. -/
def rowDescriptionPayload (cols types : List (List Nat)) : List Nat :=
  bigEndian 2 cols.length ++ (List.zipWith fieldDescription cols types).flatten

/-- One value of a DataRow: its length on 4 bytes, then its bytes. -/
def dataField (v : List Nat) : List Nat := bigEndian 4 v.length ++ v

/-- The payload of a DataRow for the values `vals`. -/
def dataRowPayload (vals : List (List Nat)) : List Nat :=
  bigEndian 2 vals.length ++ (vals.map dataField).flatten

/-- One field of an ErrorResponse: the field code, the value, a zero byte. -/
def errorField (code : Nat) (v : List Nat) : List Nat := [code] ++ v ++ [0]

/-- The fields of an ErrorResponse, keyed by the one-byte field code, one after the other. -/
def errorFields (fs : List (Nat × List Nat)) : List Nat :=
  (fs.map fun f => errorField f.1 f.2).flatten

/-- A complete message: the tag, the size of the payload plus 4 on 4 bytes, the payload. -/
def frame (tag : Nat) (payload : List Nat) : List Nat :=
  tag :: (bigEndian 4 (payload.length + 4) ++ payload)

/-- The fields `errMsg` emits, in the order of emission: for each entry that `range fields`
yields, the byte `k[0]` of its key and its value. -/
def emittedFields (order : GoMap (List Nat) → List (List Nat × List Nat)) (err : GoError) :
    List (Nat × List Nat) :=
  (order (errFields err)).map fun kv => (byte (kv.1.headD 0), kv.2)

/-- The decimal ASCII representation of a natural number. -/
def decimalASCII (n : Nat) : List Nat :=
  if n = 0 then ['0'.toNat] else (Nat.digits 10 n).reverse.map fun d => '0'.toNat + d

/-- The SQLSTATE of an ErrorResponse: the code of the error when it exposes one that is not
empty, and `XX000` otherwise. -/
def sqlstate (err : GoError) : List Nat :=
  match err.Code with
  | some code => if code = [] then ascii "XX000" else code
  | none => ascii "XX000"

/-- The hint field of an ErrorResponse: present when the error exposes a hint that is not
empty. -/
def hintField (err : GoError) : List (Nat × List Nat) :=
  match err.Hint with
  | some hint => if hint = [] then [] else [('H'.toNat, hint)]
  | none => []

/-- The position field of an ErrorResponse: present when the error exposes a position that
is not negative, in decimal ASCII. -/
def positionField (err : GoError) : List (Nat × List Nat) :=
  match err.Loc with
  | some loc => if 0 ≤ loc then [('P'.toNat, decimalASCII loc.toNat)] else []
  | none => []

/-- The fields of the ErrorResponse of an error: severity, SQLSTATE, message, then the
optional hint and position. -/
def errorFieldList (err : GoError) : List (Nat × List Nat) :=
  [('S'.toNat, ascii "ERROR"), ('C'.toNat, sqlstate err), ('M'.toNat, err.Error)] ++
    hintField err ++ positionField err

/-! ## Decoding, as the protocol words it -/

/-- Decoding of `n` values of a DataRow from the front of `bs`: each is a 4-byte big-endian
length followed by that many bytes.  The result is the values and the bytes left over. -/
def decodeValues : Nat → List Nat → Option (List (List Nat) × List Nat)
  | 0, bs => some ([], bs)
  | n + 1, bs =>
    match bs with
    | a :: b :: c :: d :: rest =>
      if beValue [a, b, c, d] ≤ rest.length then
        match decodeValues n (rest.drop (beValue [a, b, c, d])) with
        | some (vs, left) => some (rest.take (beValue [a, b, c, d]) :: vs, left)
        | none => none
      else none
    | _ => none

/-- Decoding of a DataRow: the tag `D`, the 4 bytes of the length field, the 2-byte
big-endian count, then that many values, with no byte left over. -/
def decodeDataRow (m : List Nat) : Option (List (List Nat)) :=
  match m with
  | t :: _ :: _ :: _ :: _ :: c1 :: c2 :: rest =>
    if t = 'D'.toNat then
      match decodeValues (beValue [c1, c2]) rest with
      | some (vs, []) => some vs
      | _ => none
    else none
  | _ => none

/-- A decoded field of a RowDescription. -/
structure FieldDesc where
  name : List Nat
  tableOid : Nat
  attrNumber : Nat
  typeOid : Nat
  typeSize : Nat
  typeModifier : Nat
  formatCode : Nat
deriving DecidableEq

/-- Decoding of `n` fields of a RowDescription from the front of `bs`: each is a name that
ends at the first zero byte, then 18 bytes: table OID (4), attribute number (2), type OID
(4), type size (2), type modifier (4) and format code (2), all big-endian.  The result is
the fields and the bytes left over. -/
def decodeFields : Nat → List Nat → Option (List FieldDesc × List Nat)
  | 0, bs => some ([], bs)
  | n + 1, bs =>
    match bs.dropWhile (fun x => x != 0) with
    | _ :: after =>
      if 18 ≤ after.length then
        match decodeFields n (after.drop 18) with
        | some (fs, left) =>
          some (⟨bs.takeWhile (fun x => x != 0),
            beValue (after.take 4),
            beValue ((after.drop 4).take 2),
            beValue ((after.drop 6).take 4),
            beValue ((after.drop 10).take 2),
            beValue ((after.drop 12).take 4),
            beValue ((after.drop 16).take 2)⟩ :: fs, left)
        | none => none
      else none
    | [] => none

/-- Decoding of a RowDescription: the tag `T`, the 4 bytes of the length field, the 2-byte
big-endian count, then that many fields, with no byte left over.  The result is the count
and the fields. -/
def decodeRowDescription (m : List Nat) : Option (Nat × List FieldDesc) :=
  match m with
  | t :: _ :: _ :: _ :: _ :: c1 :: c2 :: rest =>
    if t = 'T'.toNat then
      match decodeFields (beValue [c1, c2]) rest with
      | some (fs, []) => some (beValue [c1, c2], fs)
      | _ => none
    else none
  | _ => none

/-- The field of a column `c` of type `t`: its name, the OID of the registry, and 0 in
every other place. -/
def decodedField (c t : List Nat) : FieldDesc := ⟨c, 0, 0, registryOid t, 0, 0, 0⟩

/-! ## Auxiliary facts -/

theorem putUint32_one (t a b c d v : Nat) (rest : List Nat) :
    PutUint32 (t :: a :: b :: c :: d :: rest) 1 v =
      t :: byte (v >>> 24) :: byte (v >>> 16) :: byte (v >>> 8) :: byte v :: rest := rfl

theorem putUint32_zero (a b c d v : Nat) (rest : List Nat) :
    PutUint32 (a :: b :: c :: d :: rest) 0 v =
      byte (v >>> 24) :: byte (v >>> 16) :: byte (v >>> 8) :: byte v :: rest := rfl

theorem putUint16_five (t a b c d e f v : Nat) (rest : List Nat) :
    PutUint16 (t :: a :: b :: c :: d :: e :: f :: rest) 5 v =
      t :: a :: b :: c :: d :: byte (v >>> 8) :: byte v :: rest := rfl

theorem bigEndian_two (v : Nat) : bigEndian 2 v = [v / 256 % 256, v % 256] := by
  simp [bigEndian]

theorem bigEndian_four (v : Nat) :
    bigEndian 4 v = [v / 256 / 256 / 256 % 256, v / 256 / 256 % 256, v / 256 % 256, v % 256] := by
  simp [bigEndian]

theorem putUint32_bytes (v : Nat) :
    [byte (v >>> 24), byte (v >>> 16), byte (v >>> 8), byte v] = bigEndian 4 v := by
  rw [bigEndian_four]
  simp only [byte, Nat.shiftRight_eq_div_pow]
  have h1 : v / 2 ^ 24 % 256 = v / 256 / 256 / 256 % 256 := by omega
  have h2 : v / 2 ^ 16 % 256 = v / 256 / 256 % 256 := by omega
  have h3 : v / 2 ^ 8 % 256 = v / 256 % 256 := by omega
  rw [h1, h2, h3]

theorem putUint16_bytes (v : Nat) : [byte (v >>> 8), byte v] = bigEndian 2 v := by
  rw [bigEndian_two]
  simp only [byte, Nat.shiftRight_eq_div_pow]

theorem beValue_bigEndian_two (v : Nat) (h : v < 65536) : beValue (bigEndian 2 v) = v := by
  rw [bigEndian_two]
  simp only [beValue, List.foldl]
  omega

theorem beValue_bigEndian_four (v : Nat) (h : v < 4294967296) :
    beValue (bigEndian 4 v) = v := by
  rw [bigEndian_four]
  simp only [beValue, List.foldl]
  omega

theorem uint32_len_pred {α : Type} (l : List α) (h1 : 1 ≤ l.length)
    (h : l.length < 4294967296) : uint32 (len l - 1) = l.length - 1 := by
  unfold uint32 len
  omega

theorem putUint32_length (b : List Nat) (off v : Nat) : (PutUint32 b off v).length = b.length := by
  simp [PutUint32]

theorem bigEndian_four_mod (v : Nat) : bigEndian 4 (v % 4294967296) = bigEndian 4 v := by
  simp only [bigEndian_four]
  have h1 : v % 4294967296 / 256 / 256 / 256 % 256 = v / 256 / 256 / 256 % 256 := by omega
  have h2 : v % 4294967296 / 256 / 256 % 256 = v / 256 / 256 % 256 := by omega
  have h3 : v % 4294967296 / 256 % 256 = v / 256 % 256 := by omega
  have h4 : v % 4294967296 % 256 = v % 256 := by omega
  rw [h1, h2, h3, h4]

theorem bigEndian_two_mod (v : Nat) : bigEndian 2 (v % 65536) = bigEndian 2 v := by
  simp only [bigEndian_two]
  have h1 : v % 65536 / 256 % 256 = v / 256 % 256 := by omega
  have h2 : v % 65536 % 256 = v % 256 := by omega
  rw [h1, h2]

theorem uint16_len {α : Type} (l : List α) : uint16 (len l) = l.length % 65536 := by
  unfold uint16 len
  omega

/-- The two bytes that `PutUint16` stores for the count `uint16(len(l))`. -/
theorem putUint16_count {α : Type} (l : List α) :
    byte (uint16 (len l) >>> 8) = l.length / 256 % 256 ∧
      byte (uint16 (len l)) = l.length % 256 := by
  rw [uint16_len]
  simp only [byte, Nat.shiftRight_eq_div_pow]
  omega

/-- A property of all the values of a map holds of whatever a lookup finds. -/
theorem lookup_of_forall {V : Type} (P : V → Prop) (t : List Nat) :
    ∀ (m : GoMap V) (v : V), (∀ kv ∈ m, P kv.2) → m.lookup t = some v → P v := by
  intro m
  induction m with
  | nil => intro v _ h; simp at h
  | cons kv m ih =>
    intro v hall h
    obtain ⟨k0, v0⟩ := kv
    by_cases hk : t = k0
    · subst hk
      simp [List.lookup] at h
      subst h
      exact hall (t, v0) (by simp)
    · have hne : (t == k0) = false := by simpa using hk
      simp only [List.lookup, hne] at h
      exact ih v (fun kv hkv => hall kv (by simp [hkv])) h

theorem TypesOid_range : ∀ kv ∈ TypesOid, 1 ≤ kv.2 ∧ kv.2 < 4294967296 := by
  decide

/-- The conversion `uint32(TypesOid[t])` loses nothing: it is the OID of the registry. -/
theorem uint32_TypesOid (t : List Nat) : uint32 (mapIndex 0 TypesOid t) = registryOid t := by
  unfold mapIndex registryOid uint32
  cases h : TypesOid.lookup t with
  | none => simp
  | some v =>
    have hv := lookup_of_forall (fun v : Int => 1 ≤ v ∧ v < 4294967296) t TypesOid v
      TypesOid_range h
    simp only
    omega

/-- What one iteration of the loop of `rowDescriptionMsg` appends. -/
theorem rowDescriptionLoop_cons (types : List (List Nat)) (i : Nat) (c t : List Nat)
    (cs : List (List Nat)) (msg : List Nat) (h : types[i]? = some t) :
    rowDescriptionLoop types i (c :: cs) msg =
      rowDescriptionLoop types (i + 1) cs (msg ++ fieldDescription c t) := by
  rw [rowDescriptionLoop, h]
  simp only [uint32_TypesOid, putUint32_zero, putUint32_bytes, fieldDescription]
  have h4 : bigEndian 4 0 = [0, 0, 0, 0] := by decide
  have h2 : bigEndian 2 0 = [0, 0] := by decide
  rw [h4, h2]
  simp only [List.append_assoc]

/-- The loop of `rowDescriptionMsg` appends one field description per column, as long as
`types` has an entry for every column it visits. -/
theorem rowDescriptionLoop_eq (types : List (List Nat)) :
    ∀ (cs : List (List Nat)) (i : Nat) (msg : List Nat), i + cs.length ≤ types.length →
      rowDescriptionLoop types i cs msg =
        some (msg ++ (List.zipWith fieldDescription cs (types.drop i)).flatten) := by
  intro cs
  induction cs with
  | nil => intro i msg _; simp [rowDescriptionLoop]
  | cons c cs ih =>
    intro i msg h
    simp only [List.length_cons] at h
    have hi : i < types.length := by omega
    have hget : types[i]? = some types[i] := List.getElem?_eq_getElem hi
    rw [rowDescriptionLoop_cons types i c types[i] cs msg hget, ih (i + 1) _ (by omega)]
    rw [List.drop_eq_getElem_cons hi]
    simp only [List.zipWith_cons_cons, List.flatten_cons, List.append_assoc]

/-- The loop of `dataRowMsg` appends one length-prefixed field per value. -/
theorem dataRowLoop_eq : ∀ (vs : List (List Nat)) (msg : List Nat),
    dataRowLoop vs msg = msg ++ (vs.map dataField).flatten := by
  intro vs
  induction vs with
  | nil => intro msg; simp [dataRowLoop]
  | cons v vs ih =>
    intro msg
    have hlen : uint32 (len ([0, 0, 0, 0] ++ v) - 4) = v.length % 4294967296 := by
      unfold uint32 len
      simp only [List.length_append, List.length_cons, List.length_nil]
      omega
    have hb : PutUint32 ([0, 0, 0, 0] ++ v) 0 (uint32 (len ([0, 0, 0, 0] ++ v) - 4)) =
        dataField v := by
      rw [hlen]
      show PutUint32 (0 :: 0 :: 0 :: 0 :: v) 0 _ = _
      rw [putUint32_zero]
      have := putUint32_bytes (v.length % 4294967296)
      rw [bigEndian_four_mod] at this
      simp only [dataField, ← this, List.cons_append, List.nil_append]
    rw [dataRowLoop]
    simp only [hb, ih]
    simp [List.append_assoc]

/-- The loop of `errMsg` appends one field per entry, in the order of the iteration. -/
theorem errLoop_eq : ∀ (kvs : List (List Nat × List Nat)) (msg : List Nat),
    errLoop kvs msg = msg ++ errorFields (kvs.map fun kv => (byte (kv.1.headD 0), kv.2)) := by
  intro kvs
  induction kvs with
  | nil => intro msg; simp [errLoop, errorFields]
  | cons kv kvs ih =>
    intro msg
    obtain ⟨k, v⟩ := kv
    rw [errLoop]
    simp only [ih]
    simp [errorFields, errorField, List.append_assoc]

/-- Writing the size into a message that starts with a tag and four bytes frames the rest. -/
theorem putUint32_frame (t a b c d : Nat) (rest : List Nat) :
    PutUint32 (t :: a :: b :: c :: d :: rest) 1
      (uint32 (len (t :: a :: b :: c :: d :: rest) - 1)) = frame t rest := by
  have hlen : uint32 (len (t :: a :: b :: c :: d :: rest) - 1) =
      (rest.length + 4) % 4294967296 := by
    unfold uint32 len
    simp only [List.length_cons]
    omega
  rw [hlen, putUint32_one]
  have := putUint32_bytes ((rest.length + 4) % 4294967296)
  rw [bigEndian_four_mod] at this
  simp only [frame, ← this, List.cons_append, List.nil_append]

theorem frame_length (t : Nat) (p : List Nat) : (frame t p).length = p.length + 5 := by
  simp [frame, bigEndian_four]

theorem frame_drop (t : Nat) (p : List Nat) : (frame t p).drop 5 = p := by
  simp [frame, bigEndian_four]

/-- A framed message shorter than `2^32` bytes has its header. -/
theorem hasHeader_frame (t : Nat) (p : List Nat) (h : (frame t p).length < 4294967296) :
    hasHeader t (frame t p) := by
  rw [frame_length] at h
  refine ⟨by rw [frame_length]; omega, by simp [frame], ?_⟩
  rw [frame_length]
  have h4 : (bigEndian 4 (p.length + 4)).length = 4 := by simp [bigEndian_four]
  have : List.take 4 (List.drop 1 (frame t p)) = bigEndian 4 (p.length + 4) := by
    simp only [frame, List.drop_succ_cons, List.drop_zero]
    rw [List.take_append_of_le_length (by omega)]
    exact List.take_of_length_le (by omega)
  rw [this, beValue_bigEndian_four _ (by omega)]
  omega

/-- The message `rowDescriptionMsg` builds when `types` has an entry for every column. -/
theorem rowDescriptionMsg_eq (cols types : List (List Nat)) (h : cols.length ≤ types.length) :
    rowDescriptionMsg cols types = some (frame 'T'.toNat (rowDescriptionPayload cols types)) := by
  unfold rowDescriptionMsg
  simp only []
  rw [rowDescriptionLoop_eq types cols 0 _ (by omega)]
  simp only [List.drop_zero]
  show some (PutUint32 (PutUint16 ['T'.toNat, 0, 0, 0, 0, 0, 0] 5 (uint16 (len cols)) ++ _) 1 _) = _
  rw [putUint16_five]
  rw [(putUint16_count cols).1, (putUint16_count cols).2]
  simp only [List.cons_append, List.nil_append]
  rw [putUint32_frame]
  simp only [rowDescriptionPayload, bigEndian_two, List.cons_append, List.nil_append]

/-- The message `dataRowMsg` builds. -/
theorem dataRowMsg_eq (vals : List (List Nat)) :
    dataRowMsg vals = frame 'D'.toNat (dataRowPayload vals) := by
  unfold dataRowMsg
  simp only []
  rw [dataRowLoop_eq, putUint16_five]
  rw [(putUint16_count vals).1, (putUint16_count vals).2]
  simp only [List.cons_append, List.nil_append]
  rw [putUint32_frame]
  simp only [dataRowPayload, bigEndian_two, List.cons_append, List.nil_append]

/-- The message `completeMsg` builds. -/
theorem completeMsg_eq (tag : List Nat) : completeMsg tag = frame 'C'.toNat (tag ++ [0]) := by
  unfold completeMsg
  simp only [List.cons_append, List.nil_append]
  rw [putUint32_frame]

/-- The message `errMsg` builds, from the order in which the map yields its entries. -/
theorem errMsg_eq (order : GoMap (List Nat) → List (List Nat × List Nat)) (err : GoError) :
    errMsg order err = frame 'E'.toNat
      (errorFields ((order (errFields err)).map fun kv => (byte (kv.1.headD 0), kv.2)) ++ [0]) := by
  unfold errMsg
  simp only []
  rw [errLoop_eq]
  simp only [List.cons_append, List.nil_append]
  rw [putUint32_frame]

theorem registryOid_lt (t : List Nat) : registryOid t < 4294967296 := by
  unfold registryOid
  cases h : TypesOid.lookup t with
  | none => simp
  | some v =>
    have hv := lookup_of_forall (fun v : Int => 1 ≤ v ∧ v < 4294967296) t TypesOid v
      TypesOid_range h
    simp only
    omega

theorem fieldDescription_length (c t : List Nat) :
    (fieldDescription c t).length = c.length + 19 := by
  simp [fieldDescription, bigEndian_four, bigEndian_two]

/-- The size of the field descriptions of a RowDescription. -/
theorem fieldDescriptions_length : ∀ (cols types : List (List Nat)),
    cols.length ≤ types.length →
      (List.zipWith fieldDescription cols types).flatten.length =
        (cols.map fun c => c.length + 19).sum := by
  intro cols
  induction cols with
  | nil => intro types _; simp
  | cons c cs ih =>
    intro types h
    cases types with
    | nil => simp at h
    | cons t ts =>
      simp only [List.length_cons, Nat.add_le_add_iff_right] at h
      simp only [List.zipWith_cons_cons, List.flatten_cons, List.length_append,
        fieldDescription_length, List.map_cons, List.sum_cons, ih ts h]

theorem decimalASCII_step (u : Nat) (h : 10 ≤ u) :
    decimalASCII u = decimalASCII (u / 10) ++ ['0'.toNat + u % 10] := by
  have h1 : u ≠ 0 := by omega
  have h2 : u / 10 ≠ 0 := by omega
  simp only [decimalASCII, h1, h2, if_false]
  rw [Nat.digits_def' (by omega) (by omega)]
  simp

theorem decimalASCII_digit (u : Nat) (h : u < 10) : decimalASCII u = ['0'.toNat + u] := by
  by_cases h0 : u = 0
  · subst h0; rfl
  · simp only [decimalASCII, h0, if_false]
    rw [Nat.digits_of_lt 10 u h0 h]
    simp

/-- The digit loop of `fmt` writes the decimal representation, given fuel for every digit. -/
theorem fmtDigits_eq : ∀ (fuel u : Nat) (acc : List Nat), u ≤ fuel →
    fmtDigits fuel u acc = decimalASCII u ++ acc := by
  intro fuel
  induction fuel with
  | zero =>
    intro u acc h
    have : u = 0 := by omega
    subst this
    rfl
  | succ fuel ih =>
    intro u acc h
    rw [fmtDigits]
    by_cases h10 : u ≥ 10
    · rw [if_pos h10, ih (u / 10) _ (by omega), decimalASCII_step u h10]
      have : u - u / 10 * 10 = u % 10 := by omega
      rw [this]
      simp
    · rw [if_neg h10, decimalASCII_digit u (by omega)]
      simp

/-- The verb `%d` writes a position that is not negative in decimal ASCII. -/
theorem sprintfD_eq (n : Int) (h : 0 ≤ n) : sprintfD n = decimalASCII n.toNat := by
  unfold sprintfD
  rw [if_neg (by omega), fmtDigits_eq _ _ _ (le_refl _)]
  have : n.natAbs = n.toNat := by omega
  simp [this]

/-- The map `fields` of `errMsg` holds the fields of the ErrorResponse of the error. -/
theorem errFields_eq (err : GoError) :
    (errFields err).map (fun kv => (byte (kv.1.headD 0), kv.2)) = errorFieldList err := by
  obtain ⟨msg, code, hint, loc⟩ := err
  have hS : ascii "S" = [83] := by decide
  have hC : ascii "C" = [67] := by decide
  have hM : ascii "M" = [77] := by decide
  have hH : ascii "H" = [72] := by decide
  have hP : ascii "P" = [80] := by decide
  have hge : ∀ n : Int, n ≥ 0 ↔ 0 ≤ n := fun n => Iff.rfl
  cases code <;> cases hint <;> cases loc <;>
    simp only [errFields, errorFieldList, sqlstate, hintField, positionField, hge] <;>
    (try split_ifs) <;>
    simp_all [hS, hC, hM, hH, hP, byte, mapAssign, sprintfD_eq]

/-- The fields `errMsg` emits are the fields of the ErrorResponse of the error, rearranged
as the iteration of the map orders them. -/
theorem emittedFields_perm (order : GoMap (List Nat) → List (List Nat × List Nat))
    (err : GoError) (horder : (order (errFields err)).Perm (errFields err)) :
    (emittedFields order err).Perm (errorFieldList err) := by
  rw [← errFields_eq]
  exact horder.map _

/-- The payload of the message of `errMsg`: the emitted fields, then a zero byte. -/
theorem errMsg_drop (order : GoMap (List Nat) → List (List Nat × List Nat)) (err : GoError) :
    (errMsg order err).drop 5 =
      ((emittedFields order err).map fun f => [f.1] ++ f.2 ++ [0]).flatten ++ [0] := by
  rw [errMsg_eq, frame_drop]
  rfl

/-- The fields with a given code among the emitted ones are those of the ErrorResponse,
which has at most one of each. -/
theorem emittedFields_filter (order : GoMap (List Nat) → List (List Nat × List Nat))
    (err : GoError) (horder : (order (errFields err)).Perm (errFields err)) (code : Nat)
    (l : List (Nat × List Nat))
    (h : (errorFieldList err).filter (fun g => g.1 == code) = l) (hl : l.length ≤ 1) :
    (emittedFields order err).filter (fun g => g.1 == code) = l := by
  have hp := (emittedFields_perm order err horder).filter (fun g => g.1 == code)
  rw [h] at hp
  match l, hl with
  | [], _ => exact List.perm_nil.mp hp
  | [f], _ => exact List.perm_singleton.mp hp

/-- The verb `%q` writes a printable ASCII byte other than the quote and the backslash as
itself between quotes. -/
theorem fmtQ_printable (b : Nat) (h1 : 32 ≤ b) (h2 : b ≤ 126) (h3 : b ≠ 39) (h4 : b ≠ 92) :
    fmtQ b = [39, b, 39] := by
  have hp : isPrint b = true := by simp [isPrint, h1, h2]
  have hlt : b < 128 := by omega
  simp [fmtQ, h3, h4, hp, hlt]

/-- The index expression `m[k]` is the zero value for a key that the map does not hold. -/
theorem mapIndex_missing {V : Type} (zero : V) (t : List Nat) :
    ∀ (m : GoMap V), (∀ kv ∈ m, kv.1 ≠ t) → mapIndex zero m t = zero := by
  intro m h
  have : m.lookup t = none := by
    rw [List.lookup_eq_none_iff]
    intro p hp
    simpa using (h p hp).symm
  simp [mapIndex, this]

theorem registryOid_missing (t : List Nat) (h : ∀ kv ∈ TypesOid, kv.1 ≠ t) :
    registryOid t = 0 := by
  have := uint32_TypesOid t
  rw [mapIndex_missing 0 t TypesOid h] at this
  rw [← this]
  rfl

/-- Decoding the encoded values `vs`, followed by any bytes, gives `vs` back and leaves
those bytes. -/
theorem decodeValues_encode : ∀ (vs : List (List Nat)) (suffix : List Nat),
    (∀ v ∈ vs, v.length < 4294967296) →
      decodeValues vs.length ((vs.map dataField).flatten ++ suffix) = some (vs, suffix) := by
  intro vs
  induction vs with
  | nil => intro suffix _; simp [decodeValues]
  | cons v vs ih =>
    intro suffix h
    have hv : v.length < 4294967296 := h v (by simp)
    have hval : beValue [v.length / 256 / 256 / 256 % 256, v.length / 256 / 256 % 256,
        v.length / 256 % 256, v.length % 256] = v.length := by
      rw [← bigEndian_four]
      exact beValue_bigEndian_four _ hv
    have ih2 := ih suffix (fun w hw => h w (by simp [hw]))
    simp only [List.map_cons, List.flatten_cons, dataField, bigEndian_four, List.length_cons,
      List.cons_append, List.nil_append, List.append_assoc, decodeValues, hval]
    rw [if_pos (by simp), List.drop_left, List.take_left, ih2]

/-- Decoding the message of `dataRowMsg` gives the values back. -/
theorem decodeDataRow_dataRowMsg (vals : List (List Nat)) (hn : vals.length < 65536)
    (hv : ∀ v ∈ vals, v.length < 4294967296) : decodeDataRow (dataRowMsg vals) = some vals := by
  have hcount : beValue [vals.length / 256 % 256, vals.length % 256] = vals.length := by
    rw [← bigEndian_two]
    exact beValue_bigEndian_two _ hn
  have hdec := decodeValues_encode vals [] hv
  rw [List.append_nil] at hdec
  simp only [dataRowMsg_eq, frame, dataRowPayload, bigEndian_four, bigEndian_two,
    List.cons_append, List.nil_append, decodeDataRow, hcount, hdec, if_true]

/-- A name without a zero byte, followed by a zero byte, ends at that byte. -/
theorem name_split : ∀ (c rest : List Nat), (∀ x ∈ c, x ≠ 0) →
    (c ++ 0 :: rest).takeWhile (fun x => x != 0) = c ∧
      (c ++ 0 :: rest).dropWhile (fun x => x != 0) = 0 :: rest := by
  intro c
  induction c with
  | nil => intro rest _; simp [List.takeWhile, List.dropWhile]
  | cons x c ih =>
    intro rest h
    have hx : (x != 0) = true := by simpa using h x (by simp)
    have := ih rest (fun y hy => h y (by simp [hy]))
    simp [List.takeWhile, List.dropWhile, hx, this]

/-- Decoding the encoded fields of the columns, followed by any bytes, gives one field per
column and leaves those bytes. -/
theorem decodeFields_encode : ∀ (cols types : List (List Nat)) (suffix : List Nat),
    cols.length = types.length → (∀ c ∈ cols, ∀ x ∈ c, x ≠ 0) →
      decodeFields cols.length ((List.zipWith fieldDescription cols types).flatten ++ suffix) =
        some (List.zipWith decodedField cols types, suffix) := by
  intro cols
  induction cols with
  | nil => intro types suffix _ _; simp [decodeFields]
  | cons c cs ih =>
    intro types suffix hlen hz
    cases types with
    | nil => simp at hlen
    | cons t ts =>
      simp only [List.length_cons, Nat.add_right_cancel_iff] at hlen
      have ih2 := ih ts suffix hlen (fun d hd => hz d (by simp [hd]))
      have hoid : beValue (bigEndian 4 (registryOid t)) = registryOid t :=
        beValue_bigEndian_four _ (registryOid_lt t)
      rw [bigEndian_four] at hoid
      have hshape : (List.zipWith fieldDescription (c :: cs) (t :: ts)).flatten ++ suffix =
          c ++ 0 :: ([0, 0, 0, 0, 0, 0] ++ bigEndian 4 (registryOid t) ++
            [0, 0, 0, 0, 0, 0, 0, 0] ++
            ((List.zipWith fieldDescription cs ts).flatten ++ suffix)) := by
        simp [fieldDescription, bigEndian_four, bigEndian_two]
      obtain ⟨htake, hdrop⟩ := name_split c ([0, 0, 0, 0, 0, 0] ++ bigEndian 4 (registryOid t) ++
        [0, 0, 0, 0, 0, 0, 0, 0] ++ ((List.zipWith fieldDescription cs ts).flatten ++ suffix))
        (hz c (by simp))
      rw [hshape, List.length_cons, decodeFields, hdrop, htake]
      simp only [bigEndian_four, List.cons_append, List.nil_append, List.length_cons,
        List.drop_succ_cons, List.drop_zero, List.take_succ_cons, List.take_zero]
      rw [if_pos (by omega), ih2, hoid]
      rfl

theorem registryOid_cast (t : List Nat) : (registryOid t : Int) = mapIndex 0 TypesOid t := by
  unfold mapIndex registryOid
  cases h : TypesOid.lookup t with
  | none => simp
  | some v =>
    have hv := lookup_of_forall (fun v : Int => 1 ≤ v ∧ v < 4294967296) t TypesOid v
      TypesOid_range h
    simp only
    omega

theorem decodedField_names : ∀ (cols types : List (List Nat)), cols.length = types.length →
    (List.zipWith decodedField cols types).map FieldDesc.name = cols := by
  intro cols
  induction cols with
  | nil => intro types _; simp
  | cons c cs ih =>
    intro types h
    cases types with
    | nil => simp at h
    | cons t ts =>
      simp only [List.length_cons, Nat.add_right_cancel_iff] at h
      simp [decodedField, ih ts h]

theorem decodedField_oids : ∀ (cols types : List (List Nat)), cols.length = types.length →
    (List.zipWith decodedField cols types).map (fun f => (f.typeOid : Int)) =
      types.map (mapIndex 0 TypesOid) := by
  intro cols
  induction cols with
  | nil =>
    intro types h
    cases types with
    | nil => simp
    | cons t ts => simp at h
  | cons c cs ih =>
    intro types h
    cases types with
    | nil => simp at h
    | cons t ts =>
      simp only [List.length_cons, Nat.add_right_cancel_iff] at h
      simp [decodedField, ih ts h, registryOid_cast]

theorem decodedField_formats : ∀ (cols types : List (List Nat)),
    ∀ f ∈ List.zipWith decodedField cols types, f.formatCode = 0 := by
  intro cols
  induction cols with
  | nil => intro types f hf; simp at hf
  | cons c cs ih =>
    intro types f hf
    cases types with
    | nil => simp at hf
    | cons t ts =>
      simp only [List.zipWith_cons_cons, List.mem_cons] at hf
      rcases hf with h | h
      · subst h; rfl
      · exact ih ts f h

theorem fieldDescriptions_count : ∀ (cols types : List (List Nat)),
    cols.length ≤ types.length → (List.zipWith fieldDescription cols types).length = cols.length := by
  intro cols types h
  simp [List.length_zipWith, h]

/-- The two count bytes of a payload that starts with a 2-byte big-endian count. -/
theorem count_bytes (n : Nat) (rest : List Nat) :
    beValue ((bigEndian 2 n ++ rest).take 2) = n % 65536 := by
  simp only [bigEndian_two, List.cons_append, List.nil_append, List.take_succ_cons,
    List.take_zero, beValue, List.foldl]
  omega

/-- The loop of `rowDescriptionMsg` panics when `types` has no entry for some column it
visits. -/
theorem rowDescriptionLoop_none (types : List (List Nat)) :
    ∀ (cs : List (List Nat)) (i : Nat) (msg : List Nat), i ≤ types.length →
      types.length < i + cs.length → rowDescriptionLoop types i cs msg = none := by
  intro cs
  induction cs with
  | nil =>
    intro i msg h1 h2
    simp only [List.length_nil, Nat.add_zero] at h2
    omega
  | cons c cs ih =>
    intro i msg h1 h2
    simp only [List.length_cons] at h2
    by_cases hi : i < types.length
    · have hget : types[i]? = some types[i] := List.getElem?_eq_getElem hi
      rw [rowDescriptionLoop_cons types i c types[i] cs msg hget]
      exact ih (i + 1) _ (by omega) (by omega)
    · have hget : types[i]? = none := List.getElem?_eq_none (by omega)
      rw [rowDescriptionLoop, hget]

/-- Only the first `len(cols)` entries of `types` are paired with a column. -/
theorem zipWith_take_types : ∀ (cols types : List (List Nat)),
    List.zipWith fieldDescription cols (types.take cols.length) =
      List.zipWith fieldDescription cols types := by
  intro cols
  induction cols with
  | nil => intro types; simp
  | cons c cs ih =>
    intro types
    cases types with
    | nil => simp
    | cons t ts => simp [ih ts]

/-- The first five bytes and the size of a framed message depend only on the tag and on the
size of the payload. -/
theorem frame_take (t : Nat) (p : List Nat) :
    (frame t p).take 5 = t :: bigEndian 4 (p.length + 4) := by
  simp [frame, bigEndian_four]

/-- The size of the encoded fields of an ErrorResponse. -/
theorem errorFields_length (fs : List (Nat × List Nat)) :
    (errorFields fs).length = (fs.map fun f => f.2.length + 2).sum := by
  induction fs with
  | nil => simp [errorFields]
  | cons f fs ih =>
    simp only [errorFields, List.map_cons, List.flatten_cons, List.length_append,
      List.sum_cons] at ih ⊢
    rw [ih]
    simp [errorField]

/-! ## Properties of the wire format -/

/-- C1: for `rowDescriptionMsg` (columns and types of equal length), `dataRowMsg`,
`completeMsg` and `errMsg`, whenever the message built is shorter than `2^32` bytes, and for
`readyMsg`, byte 0 of the message is the tag (`T`, `D`, `C`, `E`, `Z`) and bytes 1 to 4, read
as a big-endian unsigned 32-bit integer, are the number of bytes of the message minus 1. -/
theorem builders_have_header (cols types vals : List (List Nat)) (tag : List Nat)
    (order : GoMap (List Nat) → List (List Nat × List Nat)) (err : GoError)
    (hlen : cols.length = types.length) :
    (∃ m, rowDescriptionMsg cols types = some m ∧
      (m.length < 4294967296 → hasHeader 'T'.toNat m)) ∧
    ((dataRowMsg vals).length < 4294967296 → hasHeader 'D'.toNat (dataRowMsg vals)) ∧
    ((completeMsg tag).length < 4294967296 → hasHeader 'C'.toNat (completeMsg tag)) ∧
    ((errMsg order err).length < 4294967296 → hasHeader 'E'.toNat (errMsg order err)) ∧
    hasHeader 'Z'.toNat readyMsg := by
  refine ⟨⟨_, rowDescriptionMsg_eq cols types (by omega), hasHeader_frame _ _⟩, ?_, ?_, ?_, ?_⟩
  · rw [dataRowMsg_eq]; exact hasHeader_frame _ _
  · rw [completeMsg_eq]; exact hasHeader_frame _ _
  · rw [errMsg_eq]; exact hasHeader_frame _ _
  · decide

/-- The header property at the columns `id`, `name` of types `INT4`, `TEXT`, the row
`1`, `alice`, the tag `SELECT 2` and the error `syntax error`: all four messages are short,
and each has its header. -/
theorem builders_have_header_witness :
    [ascii "id", ascii "name"].length = [ascii "INT4", ascii "TEXT"].length ∧
    (∃ m, rowDescriptionMsg [ascii "id", ascii "name"] [ascii "INT4", ascii "TEXT"] = some m ∧
      m.length = 51 ∧ hasHeader 'T'.toNat m) ∧
    hasHeader 'D'.toNat (dataRowMsg [ascii "1", ascii "alice"]) ∧
    hasHeader 'C'.toNat (completeMsg (ascii "SELECT 2")) ∧
    hasHeader 'E'.toNat (errMsg List.reverse ⟨ascii "syntax error", none, none, none⟩) ∧
    hasHeader 'Z'.toNat readyMsg := by
  obtain ⟨⟨m, hm, hT⟩, hD, hC, hE, hZ⟩ :=
    builders_have_header [ascii "id", ascii "name"] [ascii "INT4", ascii "TEXT"]
      [ascii "1", ascii "alice"] (ascii "SELECT 2") List.reverse
      ⟨ascii "syntax error", none, none, none⟩ (by decide)
  have hlen : m.length = 51 := by
    rw [rowDescriptionMsg_eq _ _ (by decide)] at hm
    rw [← Option.some.inj hm, frame_length]
    decide
  exact ⟨by decide, ⟨m, hm, hlen, hT (by omega)⟩, hD (by decide), hC (by decide),
    hE (by decide), hZ⟩

/-- C2: for columns and types of equal length `n < 65536`, `rowDescriptionMsg` returns a
message whose payload after the 5-byte header is `n` on 2 bytes, big-endian, then for each
column in order its name, a zero byte, 4 zero bytes, 2 zero bytes, the registry OID of its
type on 4 bytes, big-endian, 2 zero bytes, 4 zero bytes and 2 zero bytes; the 2 and 4 bytes
read back as `n` and as the OID, and the message has `7 + Σ (len(cols[i]) + 19)` bytes. -/
theorem rowDescriptionMsg_payload (cols types : List (List Nat))
    (hlen : cols.length = types.length) (hn : cols.length < 65536) :
    ∃ m, rowDescriptionMsg cols types = some m ∧
      m.drop 5 = bigEndian 2 cols.length ++
        (List.zipWith (fun c t => c ++ [0] ++ [0, 0, 0, 0] ++ [0, 0] ++
          bigEndian 4 (registryOid t) ++ [0, 0] ++ [0, 0, 0, 0] ++ [0, 0]) cols types).flatten ∧
      beValue (bigEndian 2 cols.length) = cols.length ∧
      (∀ t ∈ types, beValue (bigEndian 4 (registryOid t)) = registryOid t) ∧
      m.length = 7 + (cols.map fun c => c.length + 19).sum := by
  refine ⟨_, rowDescriptionMsg_eq cols types (by omega), ?_, beValue_bigEndian_two _ hn,
    fun t _ => beValue_bigEndian_four _ (registryOid_lt t), ?_⟩
  · rw [frame_drop]
    rfl
  · rw [frame_length, rowDescriptionPayload, List.length_append,
      fieldDescriptions_length cols types (by omega)]
    simp [bigEndian_two]
    omega

/-- The payload of the RowDescription of the columns `id`, `name` of types `INT4`, `TEXT`:
count 2, then the two fields with the OIDs 23 and 25; 51 bytes in all. -/
theorem rowDescriptionMsg_payload_witness :
    [ascii "id", ascii "name"].length = [ascii "INT4", ascii "TEXT"].length ∧
    [ascii "id", ascii "name"].length < 65536 ∧
    ∃ m, rowDescriptionMsg [ascii "id", ascii "name"] [ascii "INT4", ascii "TEXT"] = some m ∧
      m.drop 5 = [0, 2,
        105, 100, 0, 0, 0, 0, 0, 0, 0, 0, 0, 0, 23, 0, 0, 0, 0, 0, 0, 0, 0,
        110, 97, 109, 101, 0, 0, 0, 0, 0, 0, 0, 0, 0, 0, 25, 0, 0, 0, 0, 0, 0, 0, 0] ∧
      m.length = 51 := by
  obtain ⟨m, hm, hp, _, _, hl⟩ :=
    rowDescriptionMsg_payload [ascii "id", ascii "name"] [ascii "INT4", ascii "TEXT"]
      (by decide) (by decide)
  exact ⟨by decide, by decide, m, hm, hp.trans (by decide), hl.trans (by decide)⟩

/-- C3: for fewer than 65536 values, each shorter than `2^32` bytes, the payload of
`dataRowMsg` after the 5-byte header is the number of values on 2 bytes, big-endian, then
for each value in order its length on 4 bytes, big-endian, followed by its bytes unchanged;
the 2 and 4 bytes read back as the count and the lengths, and an empty value is the four
bytes of length 0 and nothing else. -/
theorem dataRowMsg_payload (vals : List (List Nat)) (hn : vals.length < 65536)
    (hv : ∀ v ∈ vals, v.length < 4294967296) :
    (dataRowMsg vals).drop 5 =
      bigEndian 2 vals.length ++ (vals.map fun v => bigEndian 4 v.length ++ v).flatten ∧
    beValue (bigEndian 2 vals.length) = vals.length ∧
    (∀ v ∈ vals, (bigEndian 4 v.length).length = 4 ∧
      beValue (bigEndian 4 v.length) = v.length) ∧
    (∀ v ∈ vals, v = [] → bigEndian 4 v.length ++ v = [0, 0, 0, 0]) := by
  refine ⟨?_, beValue_bigEndian_two _ hn,
    fun v h => ⟨by simp [bigEndian_four], beValue_bigEndian_four _ (hv v h)⟩, ?_⟩
  · rw [dataRowMsg_eq, frame_drop]
    rfl
  · intro v _ h
    subst h
    decide

/-- The payload of the DataRow of the values `1`, `alice`: count 2, then lengths 1 and 5
each followed by the value. -/
theorem dataRowMsg_payload_witness :
    [ascii "1", ascii "alice"].length < 65536 ∧
    (∀ v ∈ [ascii "1", ascii "alice"], v.length < 4294967296) ∧
    (dataRowMsg [ascii "1", ascii "alice"]).drop 5 =
      [0, 2] ++ ([0, 0, 0, 1] ++ ascii "1") ++ ([0, 0, 0, 5] ++ ascii "alice") ∧
    (dataRowMsg [ascii "1", []]).drop 5 = [0, 2] ++ ([0, 0, 0, 1] ++ ascii "1") ++ [0, 0, 0, 0] := by
  refine ⟨by decide, by decide, ?_, ?_⟩
  · exact (dataRowMsg_payload [ascii "1", ascii "alice"] (by decide) (by decide)).1.trans
      (by decide)
  · exact (dataRowMsg_payload [ascii "1", []] (by decide) (by decide)).1.trans (by decide)

/-- C4: for an error that exposes no code, no hint and no position, and for every order in
which the field map may be iterated, the payload of `errMsg` after the 5-byte header is the
three fields `S` = `ERROR`, `C` = `XX000` and `M` = the message of the error, in some order,
each as its code byte, its value and a zero byte, followed by one more zero byte; no `H`
or `P` field is emitted. -/
theorem errMsg_plain_error (order : GoMap (List Nat) → List (List Nat × List Nat))
    (err : GoError) (hcode : err.Code = none) (hhint : err.Hint = none)
    (hloc : err.Loc = none) (horder : (order (errFields err)).Perm (errFields err)) :
    (errMsg order err).drop 5 =
      ((emittedFields order err).map fun f => [f.1] ++ f.2 ++ [0]).flatten ++ [0] ∧
    (emittedFields order err).Perm
      [('S'.toNat, ascii "ERROR"), ('C'.toNat, ascii "XX000"), ('M'.toNat, err.Error)] ∧
    ∀ f ∈ emittedFields order err, f.1 ≠ 'H'.toNat ∧ f.1 ≠ 'P'.toNat := by
  have hperm : (emittedFields order err).Perm
      [('S'.toNat, ascii "ERROR"), ('C'.toNat, ascii "XX000"), ('M'.toNat, err.Error)] := by
    have := emittedFields_perm order err horder
    simpa [errorFieldList, sqlstate, hintField, positionField, hcode, hhint, hloc] using this
  refine ⟨errMsg_drop order err, hperm, ?_⟩
  intro f hf
  have := hperm.subset hf
  simp only [List.mem_cons, List.mem_singleton, List.not_mem_nil, or_false] at this
  rcases this with h | h | h <;> subst h <;> simp

/-- The ErrorResponse of the error `syntax error`, which exposes nothing else, when the map
yields `M`, `C`, `S` in this order: `M`, `C` and `S` fields, then the closing zero byte. -/
theorem errMsg_plain_error_witness :
    (errMsg List.reverse ⟨ascii "syntax error", none, none, none⟩).drop 5 =
      ascii "Msyntax error" ++ [0] ++ ascii "CXX000" ++ [0] ++ ascii "SERROR" ++ [0] ++ [0] ∧
    (emittedFields List.reverse ⟨ascii "syntax error", none, none, none⟩).Perm
      [('S'.toNat, ascii "ERROR"), ('C'.toNat, ascii "XX000"),
        ('M'.toNat, ascii "syntax error")] := by
  have h := errMsg_plain_error List.reverse ⟨ascii "syntax error", none, none, none⟩ rfl rfl rfl
    (List.reverse_perm _)
  exact ⟨h.1.trans (by decide), h.2.1⟩

/-- C5: for every error and every order in which the field map may be iterated, `errMsg`
emits exactly one `S` field, with value `ERROR`, exactly one `M` field, with the message of
the error, and exactly one `C` field, whose value is the code of the error when the error
exposes a code that is not empty, and `XX000` otherwise. -/
theorem errMsg_mandatory_fields (order : GoMap (List Nat) → List (List Nat × List Nat))
    (err : GoError) (horder : (order (errFields err)).Perm (errFields err)) :
    (errMsg order err).drop 5 =
      ((emittedFields order err).map fun f => [f.1] ++ f.2 ++ [0]).flatten ++ [0] ∧
    (emittedFields order err).filter (fun f => f.1 == 'S'.toNat) =
      [('S'.toNat, ascii "ERROR")] ∧
    (emittedFields order err).filter (fun f => f.1 == 'M'.toNat) = [('M'.toNat, err.Error)] ∧
    (emittedFields order err).filter (fun f => f.1 == 'C'.toNat) =
      [('C'.toNat, match err.Code with
        | some code => if code ≠ [] then code else ascii "XX000"
        | none => ascii "XX000")] := by
  refine ⟨errMsg_drop order err, ?_, ?_, ?_⟩
  · refine emittedFields_filter order err horder _ _ ?_ (by simp)
    obtain ⟨msg, code, hint, loc⟩ := err
    cases hint <;> cases loc <;>
      simp only [errorFieldList, hintField, positionField] <;> (try split_ifs) <;>
      simp [List.filter]
  · refine emittedFields_filter order err horder _ _ ?_ (by simp)
    obtain ⟨msg, code, hint, loc⟩ := err
    cases hint <;> cases loc <;>
      simp only [errorFieldList, hintField, positionField] <;> (try split_ifs) <;>
      simp [List.filter]
  · refine emittedFields_filter order err horder _ _ ?_ (by simp)
    obtain ⟨msg, code, hint, loc⟩ := err
    cases code <;> cases hint <;> cases loc <;>
      simp only [errorFieldList, hintField, positionField, sqlstate] <;> (try split_ifs) <;>
      simp_all [List.filter]

/-- The ErrorResponse of the error `syntax error` with code `42601` and position 5, when
the map yields its entries in reverse: one `S`, one `M` and one `C` field, the latter with
the code of the error. -/
theorem errMsg_mandatory_fields_witness :
    (List.reverse (errFields ⟨ascii "syntax error", some (ascii "42601"), none, some 5⟩)).Perm
      (errFields ⟨ascii "syntax error", some (ascii "42601"), none, some 5⟩) ∧
    (emittedFields List.reverse
      ⟨ascii "syntax error", some (ascii "42601"), none, some 5⟩).filter
        (fun f => f.1 == 'S'.toNat) = [('S'.toNat, ascii "ERROR")] ∧
    (emittedFields List.reverse
      ⟨ascii "syntax error", some (ascii "42601"), none, some 5⟩).filter
        (fun f => f.1 == 'M'.toNat) = [('M'.toNat, ascii "syntax error")] ∧
    (emittedFields List.reverse
      ⟨ascii "syntax error", some (ascii "42601"), none, some 5⟩).filter
        (fun f => f.1 == 'C'.toNat) = [('C'.toNat, ascii "42601")] := by
  have h := errMsg_mandatory_fields List.reverse
    ⟨ascii "syntax error", some (ascii "42601"), none, some 5⟩ (List.reverse_perm _)
  exact ⟨List.reverse_perm _, h.2.1, h.2.2.1, h.2.2.2⟩

/-- C6: for every error and every order in which the field map may be iterated, `errMsg`
emits an `H` field exactly when the error exposes a hint that is not empty, with the hint
as value, and a `P` field exactly when the error exposes a position that is not negative,
with the position in decimal ASCII as value; an empty hint or a negative position gives no
field. -/
theorem errMsg_optional_fields (order : GoMap (List Nat) → List (List Nat × List Nat))
    (err : GoError) (horder : (order (errFields err)).Perm (errFields err)) :
    (errMsg order err).drop 5 =
      ((emittedFields order err).map fun f => [f.1] ++ f.2 ++ [0]).flatten ++ [0] ∧
    (emittedFields order err).filter (fun f => f.1 == 'H'.toNat) =
      (match err.Hint with
        | some hint => if hint ≠ [] then [('H'.toNat, hint)] else []
        | none => []) ∧
    (emittedFields order err).filter (fun f => f.1 == 'P'.toNat) =
      (match err.Loc with
        | some loc => if loc ≥ 0 then [('P'.toNat, decimalASCII loc.toNat)] else []
        | none => []) := by
  refine ⟨errMsg_drop order err, ?_, ?_⟩
  · refine emittedFields_filter order err horder _ _ ?_ ?_
    · obtain ⟨msg, code, hint, loc⟩ := err
      cases hint <;> cases loc <;>
        simp only [errorFieldList, hintField, positionField] <;> (try split_ifs) <;>
        simp_all [List.filter]
    · cases err.Hint <;> simp only [] <;> (try split_ifs) <;> simp
  · refine emittedFields_filter order err horder _ _ ?_ ?_
    · obtain ⟨msg, code, hint, loc⟩ := err
      cases hint <;> cases loc <;>
        simp only [errorFieldList, hintField, positionField] <;> (try split_ifs) <;>
        simp_all [List.filter]
    · cases err.Loc <;> simp only [] <;> (try split_ifs) <;> simp

/-- The optional fields of four errors, when the map yields its entries in reverse: position
5 gives `P` = `5` and position 0 gives `P` = `0`; a hint gives `H`; an empty hint and a
negative position give no field. -/
theorem errMsg_optional_fields_witness :
    (emittedFields List.reverse
      ⟨ascii "syntax error", some (ascii "42601"), none, some 5⟩).filter
        (fun f => f.1 == 'P'.toNat) = [('P'.toNat, ascii "5")] ∧
    (emittedFields List.reverse ⟨ascii "syntax error", none, some (ascii "check"), some 0⟩).filter
        (fun f => f.1 == 'P'.toNat) = [('P'.toNat, ascii "0")] ∧
    (emittedFields List.reverse ⟨ascii "syntax error", none, some (ascii "check"), some 0⟩).filter
        (fun f => f.1 == 'H'.toNat) = [('H'.toNat, ascii "check")] ∧
    (emittedFields List.reverse ⟨ascii "syntax error", none, some [], some (-1)⟩).filter
        (fun f => f.1 == 'H'.toNat || f.1 == 'P'.toNat) = [] ∧
    (errMsg List.reverse ⟨ascii "syntax error", none, some [], some (-1)⟩).drop 5 =
      ascii "Msyntax error" ++ [0] ++ ascii "CXX000" ++ [0] ++ ascii "SERROR" ++ [0] ++ [0] := by
  have h1 := errMsg_optional_fields List.reverse
    ⟨ascii "syntax error", some (ascii "42601"), none, some 5⟩ (List.reverse_perm _)
  have h2 := errMsg_optional_fields List.reverse
    ⟨ascii "syntax error", none, some (ascii "check"), some 0⟩ (List.reverse_perm _)
  have h3 := errMsg_optional_fields List.reverse
    ⟨ascii "syntax error", none, some [], some (-1)⟩ (List.reverse_perm _)
  refine ⟨h1.2.2.trans ?_, h2.2.2.trans ?_, h2.2.1.trans ?_, by decide, h3.1.trans (by decide)⟩
  · simp [decimalASCII, ascii]
  · simp [decimalASCII, ascii]
  · simp [ascii]

/-- C7: on a message that has a byte 0, `QueryText` returns an error exactly when that byte
is not `Q`; it then returns the empty text, and an error whose text is
`Not a query message: ` followed by the observed tag as `%q` writes it, which for a printable
ASCII tag other than the quote and the backslash is the tag itself between quotes. -/
theorem QueryText_error_iff (msgType : List Nat → Option Nat)
    (hType : ∀ b rest, msgType (b :: rest) = some b) (b : Nat) (rest : List Nat) :
    ((∃ text e, QueryText msgType (b :: rest) = some (text, some e)) ↔ b ≠ 'Q'.toNat) ∧
    (b ≠ 'Q'.toNat → QueryText msgType (b :: rest) =
      some ([], some (ascii "Not a query message: " ++ fmtQ b))) ∧
    (32 ≤ b → b ≤ 126 → b ≠ 39 → b ≠ 92 → fmtQ b = [39, b, 39]) := by
  have herr : b ≠ 'Q'.toNat → QueryText msgType (b :: rest) =
      some ([], some (ascii "Not a query message: " ++ fmtQ b)) := by
    intro hb
    simp only [QueryText, hType, if_pos hb]
    rfl
  refine ⟨⟨?_, fun hb => ⟨_, _, herr hb⟩⟩, herr, fmtQ_printable b⟩
  rintro ⟨text, e, h⟩ hb
  simp only [QueryText, hType, hb, ne_eq, not_true_eq_false, if_false] at h
  split_ifs at h
  simp at h

/-- A message tagged `P`: `QueryText` returns the empty text and an error that names `P`;
and a message tagged `Q` gives no error. -/
theorem QueryText_error_iff_witness :
    (∀ (b : Nat) (rest : List Nat), (b :: rest).head? = some b) ∧
    QueryText List.head? ('P'.toNat :: [0, 0, 0, 12] ++ ascii "SELECT 1") =
      some ([], some (ascii "Not a query message: " ++ [39, 'P'.toNat, 39])) ∧
    ¬ ∃ text e, QueryText List.head? ('Q'.toNat :: [0, 0, 0, 12] ++ ascii "SELECT 1") =
      some (text, some e) := by
  have hP := QueryText_error_iff List.head? (fun _ _ => rfl) 'P'.toNat
    ([0, 0, 0, 12] ++ ascii "SELECT 1")
  have hQ := QueryText_error_iff List.head? (fun _ _ => rfl) 'Q'.toNat
    ([0, 0, 0, 12] ++ ascii "SELECT 1")
  refine ⟨fun _ _ => rfl, (hP.2.1 (by decide)).trans (by decide), ?_⟩
  intro h
  exact hQ.1.mp h rfl

/-- C8: on a message of at least 5 bytes whose byte 0 is `Q`, `QueryText` returns no error
and, as text, the bytes of the message from offset 5 to the end, unchanged; whatever the
4 length bytes are, and with a final zero byte kept when the message has one. -/
theorem QueryText_text (msgType : List Nat → Option Nat)
    (hType : ∀ b rest, msgType (b :: rest) = some b) (m : List Nat) (h5 : 5 ≤ m.length)
    (hQ : m[0]? = some 'Q'.toNat) :
    QueryText msgType m = some (m.drop 5, none) ∧
    (∀ l1 l2 l3 l4 text, m = 'Q'.toNat :: l1 :: l2 :: l3 :: l4 :: text →
      QueryText msgType m = some (text, none)) := by
  have h : QueryText msgType m = some (m.drop 5, none) := by
    match m, hQ with
    | b :: rest, hQ =>
      simp only [List.getElem?_cons_zero, Option.some.injEq] at hQ
      subst hQ
      simp only [QueryText, hType, ne_eq, not_true_eq_false, if_false, if_pos h5]
  refine ⟨h, ?_⟩
  intro l1 l2 l3 l4 text hm
  rw [h, hm]
  rfl

/-- The message `Q`, 4 length bytes, `SELECT 1`: the text is `SELECT 1`; and with a zero
byte after `SELECT 1` the text ends in that zero byte. -/
theorem QueryText_text_witness :
    QueryText List.head? ('Q'.toNat :: [0, 0, 0, 12] ++ ascii "SELECT 1") =
      some (ascii "SELECT 1", none) ∧
    QueryText List.head? ('Q'.toNat :: [0, 0, 0, 13] ++ ascii "SELECT 1" ++ [0]) =
      some (ascii "SELECT 1" ++ [0], none) := by
  exact ⟨(QueryText_text List.head? (fun _ _ => rfl)
      ('Q'.toNat :: [0, 0, 0, 12] ++ ascii "SELECT 1") (by decide) (by decide)).1.trans
      (by decide),
    (QueryText_text List.head? (fun _ _ => rfl)
      ('Q'.toNat :: [0, 0, 0, 13] ++ ascii "SELECT 1" ++ [0]) (by decide) (by decide)).1.trans
      (by decide)⟩

/-- C9: the registry `TypesOid` gives each of the 21 names its OID, `INT` having the OID of
`INT8`; it has no other entry, every OID of the table lies in `1 .. 2^32 - 1`, and the four
bytes that `rowDescriptionMsg` stores for it read back as the OID. -/
theorem TypesOid_entries :
    mapIndex 0 TypesOid (ascii "BOOL") = 16 ∧ mapIndex 0 TypesOid (ascii "BYTEA") = 17 ∧
    mapIndex 0 TypesOid (ascii "CHAR") = 18 ∧ mapIndex 0 TypesOid (ascii "INT8") = 20 ∧
    mapIndex 0 TypesOid (ascii "INT2") = 21 ∧ mapIndex 0 TypesOid (ascii "INT4") = 23 ∧
    mapIndex 0 TypesOid (ascii "TEXT") = 25 ∧ mapIndex 0 TypesOid (ascii "JSON") = 114 ∧
    mapIndex 0 TypesOid (ascii "XML") = 142 ∧ mapIndex 0 TypesOid (ascii "FLOAT4") = 700 ∧
    mapIndex 0 TypesOid (ascii "FLOAT8") = 701 ∧ mapIndex 0 TypesOid (ascii "VARCHAR") = 1043 ∧
    mapIndex 0 TypesOid (ascii "DATE") = 1082 ∧ mapIndex 0 TypesOid (ascii "TIME") = 1083 ∧
    mapIndex 0 TypesOid (ascii "TIMESTAMP") = 1114 ∧
    mapIndex 0 TypesOid (ascii "TIMESTAMPZ") = 1184 ∧
    mapIndex 0 TypesOid (ascii "INTERVAL") = 1186 ∧
    mapIndex 0 TypesOid (ascii "NUMERIC") = 1700 ∧ mapIndex 0 TypesOid (ascii "JSONB") = 3802 ∧
    mapIndex 0 TypesOid (ascii "ANY") = 2276 ∧ mapIndex 0 TypesOid (ascii "INT") = 20 ∧
    mapIndex 0 TypesOid (ascii "INT") = mapIndex 0 TypesOid (ascii "INT8") ∧
    TypesOid.length = 21 ∧ (TypesOid.map Prod.fst).Nodup ∧
    (∀ kv ∈ TypesOid, 1 ≤ kv.2 ∧ kv.2 ≤ 4294967295) ∧
    (∀ kv ∈ TypesOid, (beValue (PutUint32 [0, 0, 0, 0] 0 (uint32 kv.2)) : Int) = kv.2) := by
  decide

/-- C10: for a column whose type name is not a key of `TypesOid`, the lookup gives 0 and does
not fail, and `rowDescriptionMsg` returns a message in which the 4 bytes of the type OID
of that column are zero; the name and the other fixed bytes of the column, and the fields
of the columns before and after it, are encoded as for any other type. -/
theorem rowDescriptionMsg_unknown_type (cs1 cs2 ts1 ts2 : List (List Nat)) (c t : List Nat)
    (h1 : cs1.length = ts1.length) (h2 : cs2.length = ts2.length)
    (ht : ∀ kv ∈ TypesOid, kv.1 ≠ t) :
    mapIndex 0 TypesOid t = 0 ∧
    ∃ m, rowDescriptionMsg (cs1 ++ c :: cs2) (ts1 ++ t :: ts2) = some m ∧
      m.drop 5 = bigEndian 2 (cs1 ++ c :: cs2).length ++
        (List.zipWith fieldDescription cs1 ts1).flatten ++
        (c ++ [0] ++ [0, 0, 0, 0] ++ [0, 0] ++ [0, 0, 0, 0] ++ [0, 0] ++ [0, 0, 0, 0] ++ [0, 0]) ++
        (List.zipWith fieldDescription cs2 ts2).flatten := by
  refine ⟨mapIndex_missing 0 t TypesOid ht, _, rowDescriptionMsg_eq _ _ (by simp; omega), ?_⟩
  rw [frame_drop, rowDescriptionPayload, List.zipWith_append _ _ _ _ _ h1]
  simp only [List.zipWith_cons_cons, List.flatten_append, List.flatten_cons, List.append_assoc]
  have : fieldDescription c t =
      c ++ ([0] ++ ([0, 0, 0, 0] ++ ([0, 0] ++ ([0, 0, 0, 0] ++ ([0, 0] ++
        ([0, 0, 0, 0] ++ [0, 0])))))) := by
    rw [fieldDescription, registryOid_missing t ht]
    simp only [List.append_assoc]
    rfl
  rw [this]
  simp only [List.append_assoc]

/-- The type names `UUID`, the empty string and the lowercase `int4` are not in the
registry: each resolves to 0, and a column `u` of such a type after a column `id` of type
`INT4` is described with the OID bytes 0, 0, 0, 0. -/
theorem rowDescriptionMsg_unknown_type_witness :
    (∀ kv ∈ TypesOid, kv.1 ≠ ascii "UUID") ∧ (∀ kv ∈ TypesOid, kv.1 ≠ ascii "") ∧
    (∀ kv ∈ TypesOid, kv.1 ≠ ascii "int4") ∧
    mapIndex 0 TypesOid (ascii "UUID") = 0 ∧ mapIndex 0 TypesOid (ascii "") = 0 ∧
    mapIndex 0 TypesOid (ascii "int4") = 0 ∧
    ∃ m, rowDescriptionMsg [ascii "id", ascii "u"] [ascii "INT4", ascii "UUID"] = some m ∧
      m.drop 5 = [0, 2,
        105, 100, 0, 0, 0, 0, 0, 0, 0, 0, 0, 0, 23, 0, 0, 0, 0, 0, 0, 0, 0,
        117, 0, 0, 0, 0, 0, 0, 0, 0, 0, 0, 0, 0, 0, 0, 0, 0, 0, 0, 0] := by
  have hU := rowDescriptionMsg_unknown_type [ascii "id"] [] [ascii "INT4"] [] (ascii "u")
    (ascii "UUID") rfl rfl (by decide)
  have hE := rowDescriptionMsg_unknown_type [] [] [] [] (ascii "u") (ascii "") rfl rfl
    (by decide)
  have hL := rowDescriptionMsg_unknown_type [] [] [] [] (ascii "u") (ascii "int4") rfl rfl
    (by decide)
  obtain ⟨m, hm, hp⟩ := hU.2
  exact ⟨by decide, by decide, by decide, hU.1, hE.1, hL.1, m, hm, hp.trans (by decide)⟩

/-- C12: for fewer than 65536 values, each shorter than `2^32` bytes, decoding the message
of `dataRowMsg` (2-byte count, then per value a 4-byte length and that many bytes) uses up
the whole message and returns exactly the values; hence two such lists of values with the
same message are equal, whatever bytes the values hold. -/
theorem dataRowMsg_round_trip (vals vals2 : List (List Nat)) (hn : vals.length < 65536)
    (hv : ∀ v ∈ vals, v.length < 4294967296) (hn2 : vals2.length < 65536)
    (hv2 : ∀ v ∈ vals2, v.length < 4294967296) :
    decodeDataRow (dataRowMsg vals) = some vals ∧
    (dataRowMsg vals = dataRowMsg vals2 → vals = vals2) := by
  refine ⟨decodeDataRow_dataRowMsg vals hn hv, fun h => ?_⟩
  have h1 := decodeDataRow_dataRowMsg vals hn hv
  have h2 := decodeDataRow_dataRowMsg vals2 hn2 hv2
  rw [h, h2] at h1
  exact (Option.some.inj h1).symm

/-- The DataRow of the values `1`, `alice` and of the values `a` + NUL + `b`, empty: the
decoder returns each list, and their messages differ. -/
theorem dataRowMsg_round_trip_witness :
    decodeDataRow (dataRowMsg [ascii "1", ascii "alice"]) = some [ascii "1", ascii "alice"] ∧
    decodeDataRow (dataRowMsg [[97, 0, 98], []]) = some [[97, 0, 98], []] ∧
    dataRowMsg [ascii "1", ascii "alice"] ≠ dataRowMsg [[97, 0, 98], []] := by
  have h1 := dataRowMsg_round_trip [ascii "1", ascii "alice"] [[97, 0, 98], []] (by decide)
    (by decide) (by decide) (by decide)
  have h2 := dataRowMsg_round_trip [[97, 0, 98], []] [ascii "1", ascii "alice"] (by decide)
    (by decide) (by decide) (by decide)
  exact ⟨h1.1, h2.1, fun h => absurd (h1.2 h) (by decide)⟩

/-- C11: for columns and types of equal length `n < 65536`, no column name holding a zero
byte, decoding the message of `rowDescriptionMsg` (2-byte count, then per field a name
ended by a zero byte and 18 fixed bytes) uses up the whole message and gives the count `n`,
the names of the columns in order, the OIDs `TypesOid[types[i]]` in order, and the format
code 0 for every field. -/
theorem rowDescriptionMsg_round_trip (cols types : List (List Nat))
    (hlen : cols.length = types.length) (hn : cols.length < 65536)
    (hz : ∀ c ∈ cols, ∀ x ∈ c, x ≠ 0) :
    ∃ m fs, rowDescriptionMsg cols types = some m ∧
      decodeRowDescription m = some (cols.length, fs) ∧
      fs.map FieldDesc.name = cols ∧
      fs.map (fun f => (f.typeOid : Int)) = types.map (mapIndex 0 TypesOid) ∧
      ∀ f ∈ fs, f.formatCode = 0 := by
  refine ⟨_, List.zipWith decodedField cols types,
    rowDescriptionMsg_eq cols types (by omega), ?_, decodedField_names cols types hlen,
    decodedField_oids cols types hlen, decodedField_formats cols types⟩
  have hcount : beValue [cols.length / 256 % 256, cols.length % 256] = cols.length := by
    rw [← bigEndian_two]
    exact beValue_bigEndian_two _ hn
  have hdec := decodeFields_encode cols types [] hlen hz
  rw [List.append_nil] at hdec
  simp only [frame, rowDescriptionPayload, bigEndian_four, bigEndian_two,
    List.cons_append, List.nil_append, decodeRowDescription, hcount, hdec, if_true]

/-- The RowDescription of the columns `id`, `name` of types `INT4`, `TEXT` decodes to the
count 2, the names `id`, `name`, the OIDs 23, 25 and the format codes 0, 0. -/
theorem rowDescriptionMsg_round_trip_witness :
    ∃ m fs, rowDescriptionMsg [ascii "id", ascii "name"] [ascii "INT4", ascii "TEXT"] = some m ∧
      decodeRowDescription m = some (2, fs) ∧
      fs.map FieldDesc.name = [ascii "id", ascii "name"] ∧
      fs.map (fun f => (f.typeOid : Int)) = [23, 25] ∧
      fs.map FieldDesc.formatCode = [0, 0] := by
  obtain ⟨m, fs, hm, hd, hnames, hoids, hfmt⟩ :=
    rowDescriptionMsg_round_trip [ascii "id", ascii "name"] [ascii "INT4", ascii "TEXT"]
      (by decide) (by decide) (by decide)
  have hlen : fs.length = 2 := by
    have := congrArg List.length hnames
    simpa using this
  refine ⟨m, fs, hm, hd, hnames, hoids.trans (by decide), ?_⟩
  match fs, hlen, hfmt with
  | [f1, f2], _, hfmt =>
    simp [hfmt f1 (by simp), hfmt f2 (by simp)]

/-- C13, as stated, fails on 65536 values and on 65536 columns: the count at bytes 5 and 6
is 0, not the number of values or columns. -/
theorem count_field_counterexample :
    beValue (((dataRowMsg (List.replicate 65536 [])).drop 5).take 2) = 0 ∧
    beValue (((dataRowMsg (List.replicate 65536 [])).drop 5).take 2) ≠
      (List.replicate 65536 ([] : List Nat)).length ∧
    ∃ m, rowDescriptionMsg (List.replicate 65536 []) (List.replicate 65536 []) = some m ∧
      beValue ((m.drop 5).take 2) = 0 ∧
      beValue ((m.drop 5).take 2) ≠ (List.replicate 65536 ([] : List Nat)).length := by
  have hD : beValue (((dataRowMsg (List.replicate 65536 [])).drop 5).take 2) = 0 := by
    rw [dataRowMsg_eq, frame_drop, dataRowPayload, count_bytes, List.length_replicate]
  have hT : beValue (((frame 'T'.toNat
      (rowDescriptionPayload (List.replicate 65536 []) (List.replicate 65536 []))).drop 5).take 2)
      = 0 := by
    rw [frame_drop, rowDescriptionPayload, count_bytes, List.length_replicate]
  refine ⟨hD, ?_, _, rowDescriptionMsg_eq _ _ (le_refl _), hT, ?_⟩
  · rw [hD, List.length_replicate]; decide
  · rw [hT, List.length_replicate]; decide

/-- C13, amended: for columns and types of equal length, and for every list of values, the
2-byte big-endian count at bytes 5 and 6 of the message is the number of columns, or of
values, modulo 65536, so it is that number when there are fewer than 65536; the fields
encoded after the count are one per column, or one per value. -/
theorem count_field (cols types vals : List (List Nat)) (hlen : cols.length = types.length) :
    (∃ m, rowDescriptionMsg cols types = some m ∧
      beValue ((m.drop 5).take 2) = cols.length % 65536 ∧
      (cols.length < 65536 → beValue ((m.drop 5).take 2) = cols.length) ∧
      m.drop 7 = (List.zipWith fieldDescription cols types).flatten ∧
      (List.zipWith fieldDescription cols types).length = cols.length) ∧
    beValue (((dataRowMsg vals).drop 5).take 2) = vals.length % 65536 ∧
    (vals.length < 65536 → beValue (((dataRowMsg vals).drop 5).take 2) = vals.length) ∧
    (dataRowMsg vals).drop 7 = (vals.map dataField).flatten ∧
    (vals.map dataField).length = vals.length := by
  have hT : beValue (((frame 'T'.toNat (rowDescriptionPayload cols types)).drop 5).take 2) =
      cols.length % 65536 := by
    rw [frame_drop, rowDescriptionPayload, count_bytes]
  have hD : beValue (((dataRowMsg vals).drop 5).take 2) = vals.length % 65536 := by
    rw [dataRowMsg_eq, frame_drop, dataRowPayload, count_bytes]
  refine ⟨⟨_, rowDescriptionMsg_eq cols types (by omega), hT, fun h => ?_, ?_,
    fieldDescriptions_count cols types (by omega)⟩, hD, fun h => ?_, ?_, by simp⟩
  · rw [hT]; omega
  · simp [frame, rowDescriptionPayload, bigEndian_four, bigEndian_two]
  · rw [hD]; omega
  · simp [dataRowMsg_eq, frame, dataRowPayload, bigEndian_four, bigEndian_two]

/-- The counts of the RowDescription of `id`, `name` and of the DataRow of `1`, `alice`:
2 and 2. -/
theorem count_field_witness :
    (∃ m, rowDescriptionMsg [ascii "id", ascii "name"] [ascii "INT4", ascii "TEXT"] = some m ∧
      beValue ((m.drop 5).take 2) = 2) ∧
    beValue (((dataRowMsg [ascii "1", ascii "alice"]).drop 5).take 2) = 2 := by
  obtain ⟨⟨m, hm, _, hc, _⟩, _, hv, _⟩ :=
    count_field [ascii "id", ascii "name"] [ascii "INT4", ascii "TEXT"]
      [ascii "1", ascii "alice"] (by decide)
  exact ⟨⟨m, hm, hc (by decide)⟩, hv (by decide)⟩

/-- C14: for a tag shorter than `2^32 - 5` bytes, the message of `completeMsg` is the byte
`C`, then the length of the tag plus 5 on 4 bytes, big-endian, then the bytes of the tag
unchanged, then one zero byte. -/
theorem completeMsg_bytes (tag : List Nat) (h : tag.length < 4294967296 - 5) :
    completeMsg tag = ['C'.toNat] ++ bigEndian 4 (tag.length + 5) ++ tag ++ [0] ∧
    beValue (bigEndian 4 (tag.length + 5)) = tag.length + 5 ∧
    (bigEndian 4 (tag.length + 5)).length = 4 := by
  refine ⟨?_, beValue_bigEndian_four _ (by omega), by simp [bigEndian_four]⟩
  rw [completeMsg_eq]
  simp [frame]

/-- The CommandComplete of the tag `SELECT 2`: the length field is 13 and the payload is
`SELECT 2` and a zero byte. -/
theorem completeMsg_bytes_witness :
    (ascii "SELECT 2").length < 4294967296 - 5 ∧
    completeMsg (ascii "SELECT 2") = ['C'.toNat, 0, 0, 0, 13] ++ ascii "SELECT 2" ++ [0] := by
  exact ⟨by decide, (completeMsg_bytes (ascii "SELECT 2") (by decide)).1.trans (by decide)⟩

/-- C15: `readyMsg` is the 6 bytes `Z`, 0, 0, 0, 5, `I`: the tag `Z` (90), the length 5
and the status `I` (73). -/
theorem readyMsg_bytes :
    readyMsg = [90, 0, 0, 0, 5, 73] ∧ readyMsg.length = 6 ∧
    readyMsg[0]? = some 'Z'.toNat ∧ beValue ((readyMsg.drop 1).take 4) = 5 ∧
    readyMsg.drop 5 = ['I'.toNat] := by
  decide

/-- C16: the code at a Parse message.  On a message tagged `P` with its 5-byte header,
`QueryText` returns the empty text and the error `Not a query message: ` with the quoted
tag `P`, not the text after the header. -/
theorem QueryText_parse_message (msgType : List Nat → Option Nat)
    (hType : ∀ b rest, msgType (b :: rest) = some b) (l1 l2 l3 l4 : Nat) (text : List Nat) :
    QueryText msgType ('P'.toNat :: l1 :: l2 :: l3 :: l4 :: text) =
      some ([], some (ascii "Not a query message: " ++ [39, 'P'.toNat, 39])) := by
  simp only [QueryText, hType]
  rw [if_pos (by decide)]
  rfl

/-- The message `P`, 0, 0, 0, 12, `SELECT 1`: `QueryText` returns an error and no text. -/
theorem QueryText_parse_message_witness :
    QueryText List.head? ('P'.toNat :: 0 :: 0 :: 0 :: 12 :: ascii "SELECT 1") =
      some ([], some (ascii "Not a query message: " ++ [39, 'P'.toNat, 39])) ∧
    QueryText List.head? ('P'.toNat :: 0 :: 0 :: 0 :: 12 :: ascii "SELECT 1") ≠
      some (ascii "SELECT 1", none) := by
  have h := QueryText_parse_message List.head? (fun _ _ => rfl) 0 0 0 12 (ascii "SELECT 1")
  refine ⟨h, ?_⟩
  rw [h]
  decide

/-- C17, as stated, fails on the single byte `Q`: the slice from offset 5 is out of range
and `QueryText` does not return, whatever reads the tag. -/
theorem QueryText_short_counterexample :
    QueryText List.head? ['Q'.toNat] = none ∧
    (['Q'.toNat] : List Nat).head? = some 'Q'.toNat ∧
    ¬ ∃ text, QueryText List.head? ['Q'.toNat] = some (text, none) := by
  have h : QueryText List.head? ['Q'.toNat] = none := by decide
  refine ⟨h, by decide, ?_⟩
  rintro ⟨text, ht⟩
  rw [h] at ht
  simp at ht

/-- C17, amended: on a message whose byte 0 is `Q`, `QueryText` returns a text and no error
exactly when the message has at least 5 bytes, and the text is then the bytes from offset 5;
on a shorter one the slice from offset 5 is out of range and the call does not return. -/
theorem QueryText_total_iff (msgType : List Nat → Option Nat)
    (hType : ∀ b rest, msgType (b :: rest) = some b) (m : List Nat)
    (hQ : m[0]? = some 'Q'.toNat) :
    ((∃ text, QueryText msgType m = some (text, none)) ↔ 5 ≤ m.length) ∧
    (5 ≤ m.length → QueryText msgType m = some (m.drop 5, none)) ∧
    (m.length < 5 → QueryText msgType m = none) := by
  match m, hQ with
  | b :: rest, hQ =>
    simp only [List.getElem?_cons_zero, Option.some.injEq] at hQ
    subst hQ
    have hge : 5 ≤ ('Q'.toNat :: rest).length →
        QueryText msgType ('Q'.toNat :: rest) = some (('Q'.toNat :: rest).drop 5, none) := by
      intro h
      simp only [QueryText, hType, ne_eq, not_true_eq_false, if_false, if_pos h]
    have hlt : ('Q'.toNat :: rest).length < 5 → QueryText msgType ('Q'.toNat :: rest) = none := by
      intro h
      have h5 : ¬ 5 ≤ ('Q'.toNat :: rest).length := by omega
      simp only [QueryText, hType, ne_eq, not_true_eq_false, if_false, if_neg h5]
    refine ⟨⟨?_, fun h => ⟨_, hge h⟩⟩, hge, hlt⟩
    rintro ⟨text, h⟩
    by_contra h5
    rw [hlt (by omega)] at h
    simp at h

/-- The message `Q`, 0, 0, 0, 12, `SELECT 1` gives the text `SELECT 1`; the message `Q`,
0, 0 gives no result. -/
theorem QueryText_total_iff_witness :
    QueryText List.head? ('Q'.toNat :: 0 :: 0 :: 0 :: 12 :: ascii "SELECT 1") =
      some (ascii "SELECT 1", none) ∧
    QueryText List.head? ['Q'.toNat, 0, 0] = none := by
  exact ⟨((QueryText_total_iff List.head? (fun _ _ => rfl)
      ('Q'.toNat :: 0 :: 0 :: 0 :: 12 :: ascii "SELECT 1") (by decide)).2.1 (by decide)).trans
      (by decide),
    (QueryText_total_iff List.head? (fun _ _ => rfl) ['Q'.toNat, 0, 0] (by decide)).2.2
      (by decide)⟩

/-- C18: when `types` has at least as many entries as `cols`, every access `types[i]` of
`rowDescriptionMsg` is in range and the call returns a message, the same for any other
`types` with the same first `len(cols)` entries; when `types` has fewer entries, the accesses
below `len(types)` are in range, the one at `len(types)` is not, and no message is
returned. -/
theorem rowDescriptionMsg_types_range (cols types types2 : List (List Nat)) :
    (cols.length ≤ types.length →
      (∀ i, i < cols.length → ∃ t, types[i]? = some t) ∧
      (∃ m, rowDescriptionMsg cols types = some m) ∧
      (types2.take cols.length = types.take cols.length →
        rowDescriptionMsg cols types2 = rowDescriptionMsg cols types)) ∧
    (types.length < cols.length →
      (∀ i, i < types.length → ∃ t, types[i]? = some t) ∧
      types[types.length]? = none ∧
      rowDescriptionMsg cols types = none) := by
  refine ⟨fun h => ⟨fun i hi => ⟨types[i], List.getElem?_eq_getElem (by omega)⟩,
    ⟨_, rowDescriptionMsg_eq cols types h⟩, fun htake => ?_⟩,
    fun h => ⟨fun i hi => ⟨types[i], List.getElem?_eq_getElem hi⟩,
      List.getElem?_eq_none (le_refl _), ?_⟩⟩
  · have h2 : cols.length ≤ types2.length := by
      have := congrArg List.length htake
      simp only [List.length_take] at this
      omega
    rw [rowDescriptionMsg_eq cols types h, rowDescriptionMsg_eq cols types2 h2]
    simp only [rowDescriptionPayload]
    rw [← zipWith_take_types cols types, ← zipWith_take_types cols types2, htake]
  · unfold rowDescriptionMsg
    simp only []
    rw [rowDescriptionLoop_none types cols 0 _ (by omega) (by omega)]

/-- One column `id` with the types `INT4`, `TEXT` or `INT4`, `BOOL`: the same message; the
columns `id`, `name` with the single type `INT4`: no message. -/
theorem rowDescriptionMsg_types_range_witness :
    (∃ m, rowDescriptionMsg [ascii "id"] [ascii "INT4", ascii "TEXT"] = some m) ∧
    rowDescriptionMsg [ascii "id"] [ascii "INT4", ascii "BOOL"] =
      rowDescriptionMsg [ascii "id"] [ascii "INT4", ascii "TEXT"] ∧
    rowDescriptionMsg [ascii "id", ascii "name"] [ascii "INT4"] = none := by
  have h1 := (rowDescriptionMsg_types_range [ascii "id"] [ascii "INT4", ascii "TEXT"]
    [ascii "INT4", ascii "BOOL"]).1 (by decide)
  have h2 := (rowDescriptionMsg_types_range [ascii "id", ascii "name"] [ascii "INT4"] []).2
    (by decide)
  exact ⟨h1.2.1, h1.2.2 (by decide), h2.2.2⟩

/-- C19: for every error and any two orders in which the field map may be iterated, the two
messages of `errMsg` have the same number of bytes, 6 plus, for each emitted field, the
size of its value plus 2; they have the same first 5 bytes and both end in a zero byte; and
the encoded fields that make up the two payloads are rearrangements of one another. -/
theorem errMsg_order_independent (order1 order2 : GoMap (List Nat) → List (List Nat × List Nat))
    (err : GoError) (h1 : (order1 (errFields err)).Perm (errFields err))
    (h2 : (order2 (errFields err)).Perm (errFields err)) :
    (errMsg order1 err).length = 6 + ((emittedFields order1 err).map fun f => f.2.length + 2).sum ∧
    (errMsg order1 err).length = 6 + ((errorFieldList err).map fun f => f.2.length + 2).sum ∧
    (errMsg order2 err).length = (errMsg order1 err).length ∧
    (errMsg order2 err).take 5 = (errMsg order1 err).take 5 ∧
    (errMsg order1 err).getLast? = some 0 ∧ (errMsg order2 err).getLast? = some 0 ∧
    (errMsg order1 err).drop 5 =
      ((emittedFields order1 err).map fun f => [f.1] ++ f.2 ++ [0]).flatten ++ [0] ∧
    (errMsg order2 err).drop 5 =
      ((emittedFields order2 err).map fun f => [f.1] ++ f.2 ++ [0]).flatten ++ [0] ∧
    ((emittedFields order1 err).map fun f => [f.1] ++ f.2 ++ [0]).Perm
      ((emittedFields order2 err).map fun f => [f.1] ++ f.2 ++ [0]) := by
  have hp1 := emittedFields_perm order1 err h1
  have hp2 := emittedFields_perm order2 err h2
  have hlen : ∀ order, (errMsg order err).length =
      6 + ((emittedFields order err).map fun f => f.2.length + 2).sum := by
    intro order
    rw [errMsg_eq, frame_length, List.length_append, errorFields_length]
    simp only [emittedFields, List.length_singleton]
    omega
  have hsum : ∀ order, (order (errFields err)).Perm (errFields err) →
      ((emittedFields order err).map fun f => f.2.length + 2).sum =
        ((errorFieldList err).map fun f => f.2.length + 2).sum := fun order h =>
    ((emittedFields_perm order err h).map _).sum_eq
  have hlast : ∀ order, (errMsg order err).getLast? = some 0 := by
    intro order
    rw [errMsg_eq, frame, ← List.cons_append, ← List.append_assoc, List.getLast?_concat]
  refine ⟨hlen order1, by rw [hlen, hsum order1 h1], by rw [hlen, hlen, hsum _ h1, hsum _ h2],
    ?_, hlast order1, hlast order2, errMsg_drop order1 err, errMsg_drop order2 err,
    (hp1.trans hp2.symm).map _⟩
  have hpay : ∀ order, errMsg order err =
      frame 'E'.toNat (errorFields (emittedFields order err) ++ [0]) :=
    fun order => errMsg_eq order err
  have hsize : ∀ order, (order (errFields err)).Perm (errFields err) →
      (errorFields (emittedFields order err) ++ [0]).length =
        ((errorFieldList err).map fun f => f.2.length + 2).sum + 1 := by
    intro order h
    rw [List.length_append, errorFields_length, hsum order h, List.length_singleton]
  rw [hpay order1, hpay order2, frame_take, frame_take, hsize order1 h1, hsize order2 h2]

/-- The error `syntax error` with code `42601`, hint `check` and position 5, with the map
iterated in its own order and in reverse: both messages have 44 bytes and the same first
5 bytes, and they differ. -/
theorem errMsg_order_independent_witness :
    (errMsg id ⟨ascii "syntax error", some (ascii "42601"), some (ascii "check"), some 5⟩).length
      = 44 ∧
    (errMsg List.reverse
      ⟨ascii "syntax error", some (ascii "42601"), some (ascii "check"), some 5⟩).length = 44 ∧
    (errMsg List.reverse
      ⟨ascii "syntax error", some (ascii "42601"), some (ascii "check"), some 5⟩).take 5 =
      (errMsg id ⟨ascii "syntax error", some (ascii "42601"), some (ascii "check"), some 5⟩).take 5 ∧
    errMsg List.reverse
      ⟨ascii "syntax error", some (ascii "42601"), some (ascii "check"), some 5⟩ ≠
      errMsg id ⟨ascii "syntax error", some (ascii "42601"), some (ascii "check"), some 5⟩ := by
  have h := errMsg_order_independent id List.reverse
    ⟨ascii "syntax error", some (ascii "42601"), some (ascii "check"), some 5⟩
    (List.Perm.refl _) (List.reverse_perm _)
  have h44 : (errMsg id ⟨ascii "syntax error", some (ascii "42601"), some (ascii "check"),
      some 5⟩).length = 44 := h.1.trans (by decide)
  exact ⟨h44, h.2.2.1.trans h44, h.2.2.2.1, by decide⟩

end Pgsrv
